import Mathlib

/-!
# github2gogs: a shallow embedding of `main.go`

The Go program lists the public repositories of a GitHub user, lists the
repositories of a Gogs account, reconciles the two lists (`filterRepos`) and
asks Gogs to migrate every repository that is missing there.

Conventions of the embedding.

* A Go `string` is a Lean `String`; every string the program compares comes out
  of `encoding/json`, which only produces valid UTF-8.
* A Go `error` is its message; `nil` is `none`.  A function returning
  `(T, error)` returns `Except String T`.
* The two counters of `filterRepos` are Go `int`s that are incremented at most
  `len(srcRepos)` times, and the length of a Go slice is itself an `int`, so the
  increments never wrap: the counters are natural numbers.  The same holds for
  the page index of `fetchGithubRepos`.
* Go maps are association lists with at most one entry per key (`GoMap`).
* The network and the JSON codec are parameters (`Env`).  The state that the
  program threads is a `World`: the log of every HTTP request sent so far and the
  lines written to standard output.
* `http.NewRequest` is called by the program with its error discarded; the
  embedding covers the executions in which it yields a request, that is in
  which the destination URL is well formed.
* `fetchGithubRepos` loops until a short page arrives, so it carries a fuel
  argument counting loop iterations; `none` means the fuel ran out.
-/

namespace Github2Gogs

/-! ## Data model -/

/-- The Go struct `githubRepo`. -/
structure githubRepo where
  Name : String
  URL : String
  Description : String
  Fork : Bool
  deriving DecidableEq, Repr

/-- The Go struct `gogsRepo`. -/
structure gogsRepo where
  Name : String
  Description : String
  Mirror : Bool
  deriving DecidableEq, Repr

/-! ## Go maps -/

/-- A Go `map[κ]ν`: an association list holding at most one entry per key. -/
abbrev GoMap (κ : Type) (ν : Type) := List (κ × ν)

/-- The Go assignment `m[k] = v`: any earlier entry for `k` is replaced. -/
def GoMap.set {κ ν : Type} [DecidableEq κ] (m : GoMap κ ν) (k : κ) (v : ν) : GoMap κ ν :=
  (k, v) :: m.filter (fun e => decide (e.1 ≠ k))

/-- The Go lookup `m[k]` for a map of pointers: `none` is the `nil` a missing key yields. -/
def GoMap.get? {κ ν : Type} [DecidableEq κ] : GoMap κ ν → κ → Option ν
  | [], _ => none
  | (k', v) :: m, k => if k' = k then some v else GoMap.get? m k

/-! ## The reconciler -/

/-- The first loop of `filterRepos`: `dstRepoMap[r.Name] = r` for every element of
`dstRepos`, in order.  The map holds pointers into `dstRepos`, which is never
written, so the pointed-to record stands for the pointer. -/
def filterRepos.dstRepoMap (dstRepos : List gogsRepo) : GoMap String gogsRepo :=
  dstRepos.foldl (fun m r => GoMap.set m r.Name r) []

/-- The body of the second loop of `filterRepos`, acting on the three named results. -/
def filterRepos.step (dstRepoMap : GoMap String gogsRepo)
    (acc : List githubRepo × Nat × Nat) (repo : githubRepo) : List githubRepo × Nat × Nat :=
  match GoMap.get? dstRepoMap repo.Name with
  | some dstRepo =>
    if dstRepo.Mirror then (acc.1, acc.2.1, acc.2.2 + 1)
    else (acc.1, acc.2.1 + 1, acc.2.2)
  | none => (acc.1 ++ [repo], acc.2.1, acc.2.2)

/-- The Go function `filterRepos`; the result is `(result, conflict, alreadyMigrated)`. -/
def filterRepos (srcRepos : List githubRepo) (dstRepos : List gogsRepo) :
    List githubRepo × Nat × Nat :=
  srcRepos.foldl (filterRepos.step (filterRepos.dstRepoMap dstRepos)) ([], 0, 0)

/-! ## HTTP, JSON and the world -/

/-- The part of `*http.Client` the program configures: whether its transport skips
TLS certificate verification. -/
structure Client where
  InsecureSkipVerify : Bool
  deriving DecidableEq, Repr

/-- The client behind `http.Get`. -/
def DefaultClient : Client := ⟨false⟩

/-- An `*http.Request` as the program builds it. -/
structure Request where
  Method : String
  URL : String
  Header : GoMap String String
  Body : Option String
  deriving DecidableEq, Repr

/-- An `*http.Response`: the fields the program reads.  `Body` is what
`ioutil.ReadAll(res.Body)` returns. -/
structure Response where
  StatusCode : Int
  Status : String
  Body : Except String String

/-- The values the program stores in its `map[string]interface{}`. -/
inductive JSONValue where
  | str (s : String)
  | bool (b : Bool)
  | int (i : Int)
  deriving DecidableEq, Repr

/-- The state the program acts on: every request handed to an HTTP client so
far, oldest first, with that client (a request is logged whether or not the
transport then fails), and the texts printed to standard output. -/
structure World where
  sent : List (Client × Request)
  stdout : List String
  deriving DecidableEq, Repr

/-- What the program does not define itself: the network, whose answer may
depend on everything sent before, and the four uses of `encoding/json`. -/
structure Env where
  roundTrip : List (Client × Request) → Client → Request → Except String Response
  unmarshalGithubRepos : String → Except String (List githubRepo)
  unmarshalGogsRepos : String → Except String (List gogsRepo)
  unmarshalUserID : String → Except String Int
  marshal : GoMap String JSONValue → Except String String

/-- The Go call `c.Do(req)`: the request is logged and the network answers. -/
def Client.Do (env : Env) (c : Client) (req : Request) (w : World) :
    Except String Response × World :=
  (env.roundTrip w.sent c req, { w with sent := w.sent ++ [(c, req)] })

/-- The Go call `http.NewRequest(method, url, body)` followed by nothing else:
a request without headers. -/
def NewRequest (method url : String) (body : Option String) : Request :=
  { Method := method, URL := url, Header := [], Body := body }

/-- The Go call `http.Get(url)`: a body-less GET sent by the default client. -/
def Get (env : Env) (url : String) (w : World) : Except String Response × World :=
  Client.Do env DefaultClient (NewRequest "GET" url none) w

/-- The Go call `fmt.Printf`, given the formatted text. -/
def World.Printf (w : World) (text : String) : World :=
  { w with stdout := w.stdout ++ [text] }

/-! ## The source lister -/

/-- The URL of page `idx`:
`fmt.Sprintf("https://api.github.com/users/%s/repos?page=%d&per_page=50", user, idx)`. -/
def fetchGithubRepos.url (user : String) (idx : Nat) : String :=
  "https://api.github.com/users/" ++ user ++ "/repos?page=" ++ toString idx ++ "&per_page=50"

/-- The `for` loop of `fetchGithubRepos`, one iteration per unit of fuel,
started with the accumulated `srcRepos` and the page index `idx`. -/
def fetchGithubRepos.loop (env : Env) (user : String) :
    Nat → List githubRepo → Nat → World → Option (Except String (List githubRepo) × World)
  | 0, _, _, _ => none
  | fuel + 1, srcRepos, idx, w =>
    match Get env (fetchGithubRepos.url user idx) w with
    | (.error err, w) => some (.error err, w)
    | (.ok res, w) =>
      if res.StatusCode ≠ 200 then some (.error res.Status, w)
      else
        match res.Body with
        | .error err => some (.error err, w)
        | .ok b =>
          match env.unmarshalGithubRepos b with
          | .error err => some (.error err, w)
          | .ok result =>
            if result.length < 50 then some (.ok (srcRepos ++ result), w)
            else fetchGithubRepos.loop env user fuel (srcRepos ++ result) (idx + 1) w

/-- The Go function `fetchGithubRepos`. -/
def fetchGithubRepos (env : Env) (user : String) (fuel : Nat) (w : World) :
    Option (Except String (List githubRepo) × World) :=
  fetchGithubRepos.loop env user fuel [] 1 w

/-! ## The destination client -/

/-- The Go struct `gogs`. -/
structure gogs where
  url : String
  token : String
  uid : Int
  uidFetched : Bool
  client : Client
  deriving DecidableEq, Repr

/-- The Go call `req.Header.Set(key, value)`. -/
def Request.SetHeader (req : Request) (key value : String) : Request :=
  { req with Header := GoMap.set req.Header key value }

/-- The Go method `gogs.handleAuth`. -/
def gogs.handleAuth (g : gogs) (req : Request) : Request :=
  if g.token = "" then req
  else req.SetHeader "Authorization" ("token " ++ g.token)

/-- The Go method `gogs.fetchGogsRepos`. -/
def gogs.fetchGogsRepos (env : Env) (g : gogs) (w : World) :
    Except String (List gogsRepo) × World :=
  let req := NewRequest "GET" (g.url ++ "/api/v1/user/repos") none
  let req := g.handleAuth req
  match Client.Do env g.client req w with
  | (.error err, w) => (.error err, w)
  | (.ok res, w) =>
    if res.StatusCode ≠ 200 then (.error res.Status, w)
    else
      match res.Body with
      | .error err => (.error err, w)
      | .ok b =>
        match env.unmarshalGogsRepos b with
        | .error err => (.error err, w)
        | .ok repos => (.ok repos, w)

/-- The Go method `gogs.fetchUserInfo`; the receiver is returned as the method
leaves it. -/
def gogs.fetchUserInfo (env : Env) (g : gogs) (w : World) : Option String × gogs × World :=
  if g.uidFetched then (none, g, w)
  else
    let req := NewRequest "GET" (g.url ++ "/api/v1/user") none
    let req := g.handleAuth req
    match Client.Do env g.client req w with
    | (.error err, w) => (some err, g, w)
    | (.ok res, w) =>
      if res.StatusCode ≠ 200 then (some res.Status, g, w)
      else
        match res.Body with
        | .error err => (some err, g, w)
        | .ok b =>
          match env.unmarshalUserID b with
          | .error err => (some err, g, w)
          | .ok id => (none, { g with uid := id }, w)

/-- The map `formMap` that `gogs.migrate` fills, key by key. -/
def gogs.migrate.formMap (srcRepo : githubRepo) (uid : Int) : GoMap String JSONValue :=
  let formMap : GoMap String JSONValue := []
  let formMap := GoMap.set formMap "clone_addr" (.str srcRepo.URL)
  let formMap := GoMap.set formMap "description" (.str srcRepo.Description)
  let formMap := GoMap.set formMap "mirror" (.bool true)
  let formMap := GoMap.set formMap "repo_name" (.str srcRepo.Name)
  let formMap := GoMap.set formMap "uid" (.int uid)
  formMap

/-- The Go method `gogs.migrate`. -/
def gogs.migrate (env : Env) (g : gogs) (srcRepo : githubRepo) (w : World) :
    Option String × gogs × World :=
  match g.fetchUserInfo env w with
  | (some err, g, w) => (some err, g, w)
  | (none, g, w) =>
    match env.marshal (gogs.migrate.formMap srcRepo g.uid) with
    | .error err => (some err, g, w)
    | .ok formBytes =>
      let req := NewRequest "POST" (g.url ++ "/api/v1/repos/migrate") (some formBytes)
      let req := req.SetHeader "Content-Type" "application/json"
      let req := g.handleAuth req
      match Client.Do env g.client req w with
      | (.error err, w) => (some err, g, w)
      | (.ok res, w) =>
        if res.StatusCode ≠ 201 then (some res.Status, g, w)
        else (none, g, w)

/-! ## The orchestrator -/

/-- The summary line of `run`. -/
def run.summary (mRepos conflict already : Nat) : String :=
  toString mRepos ++ " repos need to migrate, " ++ toString conflict ++
    " conflict repos ignored, " ++ toString already ++ " repos already exist\n"

/-- The progress line of `run`: `fmt.Printf("migrating %s\n", r.Name)`. -/
def run.progress (r : githubRepo) : String :=
  "migrating " ++ r.Name ++ "\n"

/-- The loop `for _, r := range mRepos` of `run`. -/
def run.loop (env : Env) : gogs → List githubRepo → World → Option String × gogs × World
  | g, [], w => (none, g, w)
  | g, r :: mRepos, w =>
    match g.migrate env r (w.Printf (run.progress r)) with
    | (some err, g, w) => (some err, g, w)
    | (none, g, w) => run.loop env g mRepos w

/-- The client `run` builds: `&gogs{dst, token, 0, false, &http.Client{Transport: tr}}`
with `InsecureSkipVerify: true`. -/
def run.client (dst token : String) : gogs :=
  { url := dst, token := token, uid := 0, uidFetched := false, client := ⟨true⟩ }

/-- The Go function `run`: the error it returns and the world it leaves, or `none`
when the source lister ran out of fuel. -/
def run (env : Env) (src dst token : String) (fuel : Nat) (w : World) :
    Option (Option String × World) :=
  match fetchGithubRepos env src fuel w with
  | none => none
  | some (.error err, w) => some (some err, w)
  | some (.ok srcRepos, w) =>
    let g := run.client dst token
    match g.fetchGogsRepos env w with
    | (.error err, w) => some (some err, w)
    | (.ok dstRepos, w) =>
      let (mRepos, conflict, already) := filterRepos srcRepos dstRepos
      let w := w.Printf (run.summary mRepos.length conflict already)
      let (err, _, w) := run.loop env g mRepos w
      some (err, w)

/-! ## Specification-side vocabulary for the reconciler -/

/-- The last element of `dstRepos` whose name is `name`, if there is one: the
tail is searched first, the head only when the tail has no such element. -/
def lastNamed : List gogsRepo → String → Option gogsRepo
  | [], _ => none
  | d :: ds, name =>
    match lastNamed ds name with
    | some e => some e
    | none => if d.Name = name then some d else none

/-- The destination list with, for each name, only its last occurrence kept. -/
def keepLast : List gogsRepo → List gogsRepo
  | [] => []
  | d :: ds =>
    if ds.any (fun e => decide (e.Name = d.Name)) then keepLast ds else d :: keepLast ds

/-- Whether the last element of `dstRepos` bearing the name of `r` is a mirror. -/
def lastIsMirror (dstRepos : List gogsRepo) (r : githubRepo) : Bool :=
  match lastNamed dstRepos r.Name with
  | some d => d.Mirror
  | none => false

/-- Whether the last element of `dstRepos` bearing the name of `r` is not a mirror. -/
def lastIsPlain (dstRepos : List gogsRepo) (r : githubRepo) : Bool :=
  match lastNamed dstRepos r.Name with
  | some d => !d.Mirror
  | none => false

/-! ## Specification-side vocabulary for the network -/

/-- The log entry of the request for page `idx`. -/
def fetchGithubRepos.request (user : String) (idx : Nat) : Client × Request :=
  (DefaultClient, NewRequest "GET" (fetchGithubRepos.url user idx) none)

/-- The source service answers the request for page `idx` with `page`: whatever
was sent before, the response has status 200 and a readable body that decodes to
`page`. -/
def Serves (env : Env) (user : String) (idx : Nat) (page : List githubRepo) : Prop :=
  ∀ sent, ∃ res b,
    env.roundTrip sent DefaultClient (NewRequest "GET" (fetchGithubRepos.url user idx) none)
      = .ok res ∧
    res.StatusCode = 200 ∧ res.Body = .ok b ∧ env.unmarshalGithubRepos b = .ok page

/-- The world after the given requests, in order, were logged as well. -/
def World.send (w : World) (entries : List (Client × Request)) : World :=
  { w with sent := w.sent ++ entries }

/-- The log entry of the identity request of client `g`. -/
def gogs.userRequest (g : gogs) : Client × Request :=
  (g.client, g.handleAuth (NewRequest "GET" (g.url ++ "/api/v1/user") none))

/-- The log entry of the repository listing request of client `g`. -/
def gogs.reposRequest (g : gogs) : Client × Request :=
  (g.client, g.handleAuth (NewRequest "GET" (g.url ++ "/api/v1/user/repos") none))

/-- The log entry of a migration request of client `g` with the given body. -/
def gogs.migrateRequest (g : gogs) (body : String) : Client × Request :=
  (g.client, g.handleAuth
    ((NewRequest "POST" (g.url ++ "/api/v1/repos/migrate") (some body)).SetHeader
      "Content-Type" "application/json"))

/-- The body `body` is the encoding of the form of repository `r` for some user id. -/
def IsFormOf (env : Env) (r : githubRepo) (body : String) : Prop :=
  ∃ u, env.marshal (gogs.migrate.formMap r u) = .ok body

/-- Starting from client `g` and world `w`, every repository of the list, in
order, has its progress line printed and is passed to `migrate` once, each call
returns no error, and the client and the world are then `g'` and `w'`. -/
def Migrated (env : Env) : gogs → World → List githubRepo → gogs → World → Prop
  | g, w, [], g', w' => g' = g ∧ w' = w
  | g, w, r :: rs, g', w' =>
    ∃ g₁ w₁, g.migrate env r (w.Printf (run.progress r)) = (none, g₁, w₁) ∧
      Migrated env g₁ w₁ rs g' w'

/-! ## Example inputs -/

/-- A repository used in the examples. -/
def exA : githubRepo := ⟨"a", "https://github.com/u/a", "first", false⟩

/-- A second repository used in the examples. -/
def exB : githubRepo := ⟨"b", "https://github.com/u/b", "second", false⟩

/-- The fork of the examples. -/
def exC : githubRepo := ⟨"c", "https://github.com/u/c", "third", true⟩

/-- A rendering of a form value, for the examples. -/
def exRender : JSONValue → String
  | .str s => s
  | .bool b => if b then "true" else "false"
  | .int i => toString i

/-- Pages of 50, 50 and 23 repositories; every later page is as short. -/
def pagedPages (idx : Nat) : List githubRepo :=
  if idx < 3 then List.replicate 50 exA else List.replicate 23 exA

/-- A source service that serves `pagedPages` to user `u`. -/
def pagedEnv : Env where
  roundTrip := fun _ _ req =>
    if req.URL = fetchGithubRepos.url "u" 1 ∨ req.URL = fetchGithubRepos.url "u" 2 then
      .ok ⟨200, "200 OK", .ok "full"⟩
    else .ok ⟨200, "200 OK", .ok "short"⟩
  unmarshalGithubRepos := fun b =>
    if b = "full" then .ok (List.replicate 50 exA) else .ok (List.replicate 23 exA)
  unmarshalGogsRepos := fun _ => .ok []
  unmarshalUserID := fun _ => .ok 0
  marshal := fun _ => .ok ""

/-- The end-to-end scenario: the source serves `a`, `b`, `c` on one short page,
the destination lists `b` as a mirror, answers the identity request with id 7
and accepts every migration. -/
def exEnv : Env where
  roundTrip := fun _ _ req =>
    if req.Method = "POST" then .ok ⟨201, "201 Created", .ok ""⟩
    else .ok ⟨200, "200 OK", .ok ""⟩
  unmarshalGithubRepos := fun _ => .ok [exA, exB, exC]
  unmarshalGogsRepos := fun _ => .ok [⟨"b", "second", true⟩]
  unmarshalUserID := fun _ => .ok 7
  marshal := fun m =>
    .ok (String.intercalate "&" (m.map (fun e => e.1 ++ "=" ++ exRender e.2)))

/-- A destination that rejects the token: every request of a client other than
the default one is answered with status 401; the source serves one short page. -/
def unauthEnv : Env where
  roundTrip := fun _ c _ =>
    if c = DefaultClient then .ok ⟨200, "200 OK", .ok ""⟩
    else .ok ⟨401, "401 Unauthorized", .ok ""⟩
  unmarshalGithubRepos := fun _ => .ok [exA]
  unmarshalGogsRepos := fun _ => .ok []
  unmarshalUserID := fun _ => .ok 7
  marshal := fun _ => .ok ""

/-- An identity service whose answer changes: the first request is answered with
id 7, every later one with id 8. -/
def driftEnv : Env where
  roundTrip := fun sent _ _ =>
    if sent.isEmpty then .ok ⟨200, "200 OK", .ok "7"⟩ else .ok ⟨200, "200 OK", .ok "8"⟩
  unmarshalGithubRepos := fun _ => .ok []
  unmarshalGogsRepos := fun _ => .ok []
  unmarshalUserID := fun b => if b = "7" then .ok 7 else .ok 8
  marshal := fun _ => .ok ""

/-! ## Lemmas on Go maps and on the reconciler -/

theorem GoMap.get?_filter_ne {κ ν : Type} [DecidableEq κ] (m : GoMap κ ν) (k k' : κ)
    (h : k ≠ k') : GoMap.get? (m.filter (fun e => decide (e.1 ≠ k))) k' = GoMap.get? m k' := by
  induction m with
  | nil => rfl
  | cons e m ih =>
    obtain ⟨a, b⟩ := e
    by_cases hak : a = k
    · subst hak
      simpa [List.filter, GoMap.get?, h] using ih
    · simp only [decide_not] at ih
      simp [List.filter, GoMap.get?, hak, ih]

theorem GoMap.get?_set {κ ν : Type} [DecidableEq κ] (m : GoMap κ ν) (k k' : κ) (v : ν) :
    GoMap.get? (GoMap.set m k v) k' = if k = k' then some v else GoMap.get? m k' := by
  by_cases h : k = k'
  · simp [GoMap.set, GoMap.get?, h]
  · have := GoMap.get?_filter_ne m k k' h
    simp only [decide_not] at this
    simp [GoMap.set, GoMap.get?, h, this]

theorem get?_foldl_set (dstRepos : List gogsRepo) (m : GoMap String gogsRepo) (name : String) :
    GoMap.get? (dstRepos.foldl (fun m r => GoMap.set m r.Name r) m) name =
      match lastNamed dstRepos name with
      | some d => some d
      | none => GoMap.get? m name := by
  induction dstRepos generalizing m with
  | nil => rfl
  | cons d ds ih =>
    rw [List.foldl_cons, ih, lastNamed]
    cases hl : lastNamed ds name with
    | some e => rfl
    | none =>
      simp only [GoMap.get?_set]
      by_cases hn : d.Name = name <;> simp [hn]

theorem get?_dstRepoMap (dstRepos : List gogsRepo) (name : String) :
    GoMap.get? (filterRepos.dstRepoMap dstRepos) name = lastNamed dstRepos name := by
  rw [filterRepos.dstRepoMap, get?_foldl_set]
  cases lastNamed dstRepos name <;> rfl

theorem lastNamed_eq_none (dstRepos : List gogsRepo) (name : String) :
    lastNamed dstRepos name = none ↔ ∀ d ∈ dstRepos, d.Name ≠ name := by
  induction dstRepos with
  | nil => simp [lastNamed]
  | cons d ds ih =>
    rw [lastNamed]
    cases hl : lastNamed ds name with
    | some e =>
      have : ¬ ∀ d ∈ ds, d.Name ≠ name := fun h => by simp [ih.mpr h] at hl
      simp only [List.mem_cons, forall_eq_or_imp]
      constructor
      · intro h; cases h
      · intro h; exact absurd h.2 this
    | none =>
      have := ih.mp hl
      by_cases hn : d.Name = name
      · simp [hn]
      · simpa [hn] using this

theorem lastNamed_some (dstRepos : List gogsRepo) (name : String) (d : gogsRepo)
    (h : lastNamed dstRepos name = some d) : d ∈ dstRepos ∧ d.Name = name := by
  induction dstRepos with
  | nil => simp [lastNamed] at h
  | cons e ds ih =>
    rw [lastNamed] at h
    cases hl : lastNamed ds name with
    | some e' =>
      rw [hl] at h
      simp only [Option.some.injEq] at h
      subst h
      exact ⟨List.mem_cons_of_mem _ (ih hl).1, (ih hl).2⟩
    | none =>
      rw [hl] at h
      by_cases hn : e.Name = name
      · simp [hn] at h
        subst h
        exact ⟨List.mem_cons_self _ _, hn⟩
      · simp [hn] at h

theorem lastNamed_of_nodup (dstRepos : List gogsRepo)
    (hD : (dstRepos.map gogsRepo.Name).Nodup) (d : gogsRepo) (hd : d ∈ dstRepos) :
    lastNamed dstRepos d.Name = some d := by
  induction dstRepos with
  | nil => simp at hd
  | cons e ds ih =>
    rw [List.map_cons, List.nodup_cons] at hD
    rw [lastNamed]
    rcases List.mem_cons.mp hd with h | h
    · subst h
      have : lastNamed ds d.Name = none := by
        rw [lastNamed_eq_none]
        intro x hx hxn
        exact hD.1 (List.mem_map.mpr ⟨x, hx, hxn⟩)
      simp [this]
    · simp [ih hD.2 h]

/-- The loop of `filterRepos` in closed form, for any starting values. -/
theorem foldl_step_eq (dstRepos : List gogsRepo) (srcRepos : List githubRepo)
    (acc : List githubRepo × Nat × Nat) :
    srcRepos.foldl (filterRepos.step (filterRepos.dstRepoMap dstRepos)) acc =
      (acc.1 ++ srcRepos.filter (fun r => (lastNamed dstRepos r.Name).isNone),
       acc.2.1 + srcRepos.countP (lastIsPlain dstRepos),
       acc.2.2 + srcRepos.countP (lastIsMirror dstRepos)) := by
  induction srcRepos generalizing acc with
  | nil => simp
  | cons r rs ih =>
    rw [List.foldl_cons, ih, filterRepos.step, get?_dstRepoMap]
    cases hl : lastNamed dstRepos r.Name with
    | none =>
      simp [List.filter_cons, List.countP_cons, lastIsPlain, lastIsMirror, hl]
    | some d =>
      cases hm : d.Mirror <;>
        simp [List.filter_cons, List.countP_cons, lastIsPlain, lastIsMirror, hl, hm,
          Nat.add_assoc, Nat.add_comm 1]

/-- The Go function `filterRepos` in closed form. -/
theorem filterRepos_eq (srcRepos : List githubRepo) (dstRepos : List gogsRepo) :
    filterRepos srcRepos dstRepos =
      (srcRepos.filter (fun r => (lastNamed dstRepos r.Name).isNone),
       srcRepos.countP (lastIsPlain dstRepos),
       srcRepos.countP (lastIsMirror dstRepos)) := by
  rw [filterRepos, foldl_step_eq]
  simp

theorem lastNamed_eq_some_iff (dstRepos : List gogsRepo) (name : String) (d : gogsRepo) :
    lastNamed dstRepos name = some d ↔
      ∃ pre post, dstRepos = pre ++ d :: post ∧ d.Name = name ∧ ∀ e ∈ post, e.Name ≠ name := by
  constructor
  · intro h
    induction dstRepos with
    | nil => simp [lastNamed] at h
    | cons e ds ih =>
      rw [lastNamed] at h
      cases hl : lastNamed ds name with
      | some e' =>
        rw [hl] at h
        simp only [Option.some.injEq] at h
        subst h
        obtain ⟨pre, post, h1, h2, h3⟩ := ih hl
        exact ⟨e :: pre, post, by rw [h1, List.cons_append], h2, h3⟩
      | none =>
        rw [hl] at h
        by_cases hn : e.Name = name
        · simp [hn] at h
          subst h
          exact ⟨[], ds, rfl, hn, (lastNamed_eq_none ds name).mp hl⟩
        · simp [hn] at h
  · rintro ⟨pre, post, h1, h2, h3⟩
    subst h1
    induction pre with
    | nil =>
      rw [List.nil_append, lastNamed, (lastNamed_eq_none post name).mpr h3]
      simp [h2]
    | cons e pre ih =>
      rw [List.cons_append, lastNamed, ih]

theorem length_classes (dstRepos : List gogsRepo) (srcRepos : List githubRepo) :
    (srcRepos.filter (fun r => (lastNamed dstRepos r.Name).isNone)).length +
      srcRepos.countP (lastIsPlain dstRepos) + srcRepos.countP (lastIsMirror dstRepos) =
      srcRepos.length := by
  induction srcRepos with
  | nil => rfl
  | cons r rs ih =>
    cases hl : lastNamed dstRepos r.Name with
    | none =>
      simp [List.filter_cons, List.countP_cons, lastIsPlain, lastIsMirror, hl]
      omega
    | some d =>
      cases hm : d.Mirror <;>
        simp [List.filter_cons, List.countP_cons, lastIsPlain, lastIsMirror, hl, hm] <;> omega

theorem keepLast_sublist (dstRepos : List gogsRepo) : (keepLast dstRepos).Sublist dstRepos := by
  induction dstRepos with
  | nil => exact List.Sublist.slnil
  | cons d ds ih =>
    rw [keepLast]
    split
    · exact List.Sublist.cons d ih
    · exact List.Sublist.cons₂ d ih

theorem lastNamed_keepLast (dstRepos : List gogsRepo) (name : String) :
    lastNamed (keepLast dstRepos) name = lastNamed dstRepos name := by
  induction dstRepos with
  | nil => rfl
  | cons d ds ih =>
    rw [keepLast]
    split
    · rename_i hany
      rw [ih, lastNamed]
      cases hl : lastNamed ds name with
      | some e => rfl
      | none =>
        have hno := (lastNamed_eq_none ds name).mp hl
        have : d.Name ≠ name := by
          intro hn
          obtain ⟨e, he, hen⟩ := List.any_eq_true.mp hany
          exact hno e he ((of_decide_eq_true hen).trans hn)
        simp [this]
    · rw [lastNamed, lastNamed, ih]

theorem keepLast_nodup (dstRepos : List gogsRepo) :
    ((keepLast dstRepos).map gogsRepo.Name).Nodup := by
  induction dstRepos with
  | nil => exact List.nodup_nil
  | cons d ds ih =>
    rw [keepLast]
    split
    · exact ih
    · rename_i hany
      rw [List.map_cons, List.nodup_cons]
      refine ⟨?_, ih⟩
      intro hmem
      obtain ⟨e, he, hen⟩ := List.mem_map.mp hmem
      apply hany
      exact List.any_eq_true.mpr ⟨e, (keepLast_sublist ds).subset he, decide_eq_true hen⟩

theorem dstRepoMap_step_congr (D D' : List gogsRepo)
    (h : ∀ name, lastNamed D' name = lastNamed D name) :
    filterRepos.step (filterRepos.dstRepoMap D') = filterRepos.step (filterRepos.dstRepoMap D) := by
  funext acc repo
  simp only [filterRepos.step, get?_dstRepoMap, h]

theorem isNone_lastNamed_iff (dstRepos : List gogsRepo) (r : githubRepo) :
    (lastNamed dstRepos r.Name).isNone = decide (∀ d ∈ dstRepos, d.Name ≠ r.Name) := by
  cases hl : lastNamed dstRepos r.Name with
  | none =>
    have := (lastNamed_eq_none dstRepos r.Name).mp hl
    simp only [Option.isNone_none]
    exact (decide_eq_true this).symm
  | some d =>
    have h := lastNamed_some dstRepos r.Name d hl
    simp only [Option.isNone_some]
    symm
    apply decide_eq_false
    intro hall
    exact hall d h.1 h.2

theorem lastIsMirror_iff (dstRepos : List gogsRepo) (r : githubRepo) :
    lastIsMirror dstRepos r = true ↔
      ∃ d, lastNamed dstRepos r.Name = some d ∧ d.Mirror = true := by
  unfold lastIsMirror
  cases lastNamed dstRepos r.Name <;> simp

theorem lastIsPlain_iff (dstRepos : List gogsRepo) (r : githubRepo) :
    lastIsPlain dstRepos r = true ↔
      ∃ d, lastNamed dstRepos r.Name = some d ∧ d.Mirror = false := by
  unfold lastIsPlain
  cases lastNamed dstRepos r.Name <;> simp

theorem lastIsPlain_of_nodup (dstRepos : List gogsRepo)
    (hD : (dstRepos.map gogsRepo.Name).Nodup) (r : githubRepo) :
    lastIsPlain dstRepos r = decide (∃ d ∈ dstRepos, d.Name = r.Name ∧ d.Mirror = false) := by
  by_cases h : ∃ d ∈ dstRepos, d.Name = r.Name ∧ d.Mirror = false
  · rw [decide_eq_true h, lastIsPlain_iff]
    obtain ⟨d, hd, hn, hm⟩ := h
    exact ⟨d, hn ▸ lastNamed_of_nodup dstRepos hD d hd, hm⟩
  · rw [decide_eq_false h]
    cases hp : lastIsPlain dstRepos r with
    | false => rfl
    | true =>
      obtain ⟨d, hl, hm⟩ := (lastIsPlain_iff dstRepos r).mp hp
      have := lastNamed_some dstRepos r.Name d hl
      exact absurd ⟨d, this.1, this.2, hm⟩ h

theorem lastIsMirror_of_nodup (dstRepos : List gogsRepo)
    (hD : (dstRepos.map gogsRepo.Name).Nodup) (r : githubRepo) :
    lastIsMirror dstRepos r = decide (∃ d ∈ dstRepos, d.Name = r.Name ∧ d.Mirror = true) := by
  by_cases h : ∃ d ∈ dstRepos, d.Name = r.Name ∧ d.Mirror = true
  · rw [decide_eq_true h, lastIsMirror_iff]
    obtain ⟨d, hd, hn, hm⟩ := h
    exact ⟨d, hn ▸ lastNamed_of_nodup dstRepos hD d hd, hm⟩
  · rw [decide_eq_false h]
    cases hp : lastIsMirror dstRepos r with
    | false => rfl
    | true =>
      obtain ⟨d, hl, hm⟩ := (lastIsMirror_iff dstRepos r).mp hp
      have := lastNamed_some dstRepos r.Name d hl
      exact absurd ⟨d, this.1, this.2, hm⟩ h

theorem lastNamed_ne_none_of_match (dstRepos : List gogsRepo) (r : githubRepo)
    (h : ∃ d ∈ dstRepos, d.Name = r.Name ∧ d.Mirror = true) :
    (lastNamed dstRepos r.Name).isNone = false := by
  obtain ⟨d, hd, hn, _⟩ := h
  cases hl : lastNamed dstRepos r.Name with
  | some e => rfl
  | none => exact absurd hn ((lastNamed_eq_none dstRepos r.Name).mp hl d hd)

theorem filter_filter_of_imp {α : Type} (p q : α → Bool) (l : List α)
    (h : ∀ a, p a = true → q a = true) : (l.filter q).filter p = l.filter p := by
  induction l with
  | nil => rfl
  | cons a l ih =>
    cases hq : q a with
    | true => simp [List.filter_cons, hq, ih]
    | false =>
      have hp : p a = false := by
        cases hp : p a with
        | false => rfl
        | true => rw [h a hp] at hq; cases hq
      simp [List.filter_cons, hq, hp, ih]

theorem countP_filter_of_imp {α : Type} (p q : α → Bool) (l : List α)
    (h : ∀ a, p a = true → q a = true) : (l.filter q).countP p = l.countP p := by
  rw [List.countP_eq_length_filter, List.countP_eq_length_filter, filter_filter_of_imp p q l h]

/-! ## The claims on the reconciler -/

/-- C1: for every source list and every destination list, the length of the
migrate set plus the conflict count plus the already-migrated count that
`filterRepos` returns is the length of the source list. -/
theorem filterRepos_counts_total (S : List githubRepo) (D : List gogsRepo) :
    (filterRepos S D).1.length + (filterRepos S D).2.1 + (filterRepos S D).2.2 = S.length := by
  rw [filterRepos_eq]
  exact length_classes D S

/-- C2: the migrate set of `filterRepos S D` is the sub-list of `S`, order and
repeats kept, of the repositories whose name is the name of no element of `D`;
so every such repository of `S` is in the migrate set, and the migrate set lists
its elements in the order of `S`. -/
theorem filterRepos_migrate_set (S : List githubRepo) (D : List gogsRepo) :
    (filterRepos S D).1 = S.filter (fun r => decide (∀ d ∈ D, d.Name ≠ r.Name)) ∧
    (∀ r ∈ S, (∀ d ∈ D, d.Name ≠ r.Name) → r ∈ (filterRepos S D).1) ∧
    (filterRepos S D).1.Sublist S := by
  have h : (filterRepos S D).1 = S.filter (fun r => decide (∀ d ∈ D, d.Name ≠ r.Name)) := by
    rw [filterRepos_eq]
    exact congrArg (fun p => List.filter p S) (funext (isNone_lastNamed_iff D))
  refine ⟨h, ?_, ?_⟩
  · intro r hr hno
    rw [h]
    exact List.mem_filter.mpr ⟨hr, decide_eq_true hno⟩
  · rw [h]
    exact List.filter_sublist S

/-- C3, the claim as written, fails: the one source repository `x` has the name
of a destination repository with `Mirror = true`, yet `filterRepos` counts it as
a conflict and counts nothing as already migrated, because a later destination
entry of the same name is not a mirror. -/
theorem filterRepos_already_any_mirror_fails :
    filterRepos [⟨"x", "u", "", false⟩] [⟨"x", "", true⟩, ⟨"x", "", false⟩] = ([], 1, 0) ∧
    List.countP
      (fun r => decide (∃ d ∈ [(⟨"x", "", true⟩ : gogsRepo), ⟨"x", "", false⟩],
        d.Name = r.Name ∧ d.Mirror = true))
      [(⟨"x", "u", "", false⟩ : githubRepo)] = 1 := by
  decide

/-- C3, amended: for every source list `S` and destination list `D`, every
source repository whose name is the name of an element of `D` with
`Mirror = true` is excluded from the migrate set, and removing those
repositories from `S` leaves the migrate set unchanged.  The already-migrated
count of `filterRepos S D` is the number of elements of `S` for which the last
element of `D` bearing their name has `Mirror = true`, and removing those
elements from `S` leaves the conflict count unchanged.  When the names of `D`
are pairwise distinct, the last element of a name is a mirror exactly when some
element of that name is, so the already-migrated count is the number of elements
of `S` whose name is the name of some element of `D` with `Mirror = true`, and
removing those elements from `S` leaves the conflict count unchanged. -/
theorem filterRepos_already_last_mirror (S : List githubRepo) (D : List gogsRepo) :
    (∀ r ∈ S, (∃ d ∈ D, d.Name = r.Name ∧ d.Mirror = true) → r ∉ (filterRepos S D).1) ∧
    (filterRepos
      (S.filter (fun r => !decide (∃ d ∈ D, d.Name = r.Name ∧ d.Mirror = true))) D).1 =
      (filterRepos S D).1 ∧
    (∀ r, lastIsMirror D r = true ↔
      ∃ pre d post, D = pre ++ d :: post ∧ d.Name = r.Name ∧ d.Mirror = true ∧
        ∀ e ∈ post, e.Name ≠ r.Name) ∧
    (filterRepos S D).2.2 = S.countP (lastIsMirror D) ∧
    (filterRepos (S.filter (fun r => !lastIsMirror D r)) D).1 = (filterRepos S D).1 ∧
    (filterRepos (S.filter (fun r => !lastIsMirror D r)) D).2.1 = (filterRepos S D).2.1 ∧
    ((D.map gogsRepo.Name).Nodup →
      (∀ r, lastIsMirror D r = true ↔ ∃ d ∈ D, d.Name = r.Name ∧ d.Mirror = true) ∧
      (filterRepos S D).2.2 =
        S.countP (fun r => decide (∃ d ∈ D, d.Name = r.Name ∧ d.Mirror = true)) ∧
      (filterRepos
        (S.filter (fun r => !decide (∃ d ∈ D, d.Name = r.Name ∧ d.Mirror = true))) D).2.1 =
        (filterRepos S D).2.1) := by
  have hconf : (filterRepos (S.filter (fun r => !lastIsMirror D r)) D).2.1 =
      (filterRepos S D).2.1 := by
    rw [filterRepos_eq, filterRepos_eq]
    apply countP_filter_of_imp
    intro r hp
    obtain ⟨d, hl, hm⟩ := (lastIsPlain_iff D r).mp hp
    simp [lastIsMirror, hl, hm]
  refine ⟨?_, ?_, ?_, ?_, ?_, hconf, ?_⟩
  · intro r _ hex hmem
    rw [filterRepos_eq] at hmem
    have hnone := (List.mem_filter.mp hmem).2
    rw [lastNamed_ne_none_of_match D r hex] at hnone
    cases hnone
  · rw [filterRepos_eq, filterRepos_eq]
    apply filter_filter_of_imp
    intro r hnone
    have hno : ¬ ∃ d ∈ D, d.Name = r.Name ∧ d.Mirror = true := by
      intro hex
      rw [lastNamed_ne_none_of_match D r hex] at hnone
      cases hnone
    simp only [decide_eq_false hno, Bool.not_false]
  · intro r
    rw [lastIsMirror_iff]
    constructor
    · rintro ⟨d, hl, hm⟩
      obtain ⟨pre, post, h1, h2, h3⟩ := (lastNamed_eq_some_iff D r.Name d).mp hl
      exact ⟨pre, d, post, h1, h2, hm, h3⟩
    · rintro ⟨pre, d, post, h1, h2, hm, h3⟩
      exact ⟨d, (lastNamed_eq_some_iff D r.Name d).mpr ⟨pre, post, h1, h2, h3⟩, hm⟩
  · rw [filterRepos_eq]
  · rw [filterRepos_eq, filterRepos_eq]
    apply filter_filter_of_imp
    intro r hnone
    cases hl : lastNamed D r.Name with
    | none => simp [lastIsMirror, hl]
    | some d => rw [hl] at hnone; cases hnone
  · intro hD
    have hpt : ∀ r : githubRepo,
        decide (∃ d ∈ D, d.Name = r.Name ∧ d.Mirror = true) = lastIsMirror D r :=
      fun r => (lastIsMirror_of_nodup D hD r).symm
    refine ⟨?_, ?_, ?_⟩
    · intro r
      rw [← hpt r, decide_eq_true_iff]
    · simp only [hpt]
      rw [filterRepos_eq]
    · simp only [hpt]
      exact hconf

/-- C3, amended, at a destination list with pairwise distinct names: destination
`b` (a mirror) and `c` (plain), source `a`, `b`, `c`, `b`. -/
theorem filterRepos_already_last_mirror_witness :
    (List.map gogsRepo.Name [⟨"b", "", true⟩, ⟨"c", "", false⟩]).Nodup ∧
    filterRepos [⟨"a", "", "", false⟩, ⟨"b", "", "", false⟩, ⟨"c", "", "", false⟩,
        ⟨"b", "", "", true⟩] [⟨"b", "", true⟩, ⟨"c", "", false⟩] =
      ([⟨"a", "", "", false⟩], 1, 2) ∧
    (filterRepos [⟨"a", "", "", false⟩, ⟨"b", "", "", false⟩, ⟨"c", "", "", false⟩,
        ⟨"b", "", "", true⟩] [⟨"b", "", true⟩, ⟨"c", "", false⟩]).2.2 =
      List.countP
        (fun r => decide (∃ d ∈ [(⟨"b", "", true⟩ : gogsRepo), ⟨"c", "", false⟩],
          d.Name = r.Name ∧ d.Mirror = true))
        [(⟨"a", "", "", false⟩ : githubRepo), ⟨"b", "", "", false⟩, ⟨"c", "", "", false⟩,
          ⟨"b", "", "", true⟩] :=
  ⟨by decide, by decide,
    ((filterRepos_already_last_mirror
      [⟨"a", "", "", false⟩, ⟨"b", "", "", false⟩, ⟨"c", "", "", false⟩, ⟨"b", "", "", true⟩]
      [⟨"b", "", true⟩, ⟨"c", "", false⟩]).2.2.2.2.2.2 (by decide)).2.1⟩

/-- C4: when the names of the destination list `D` are pairwise distinct, the
conflict count of `filterRepos S D` is the number of elements of `S` whose name
is the name of an element of `D` with `Mirror = false`; no such element is in
the migrate set, and removing them from `S` changes neither the migrate set nor
the already-migrated count. -/
theorem filterRepos_conflict_distinct (S : List githubRepo) (D : List gogsRepo)
    (hD : (D.map gogsRepo.Name).Nodup) :
    (filterRepos S D).2.1 =
      S.countP (fun r => decide (∃ d ∈ D, d.Name = r.Name ∧ d.Mirror = false)) ∧
    (∀ r ∈ S, (∃ d ∈ D, d.Name = r.Name ∧ d.Mirror = false) → r ∉ (filterRepos S D).1) ∧
    (filterRepos
      (S.filter (fun r => !decide (∃ d ∈ D, d.Name = r.Name ∧ d.Mirror = false))) D).1 =
      (filterRepos S D).1 ∧
    (filterRepos
      (S.filter (fun r => !decide (∃ d ∈ D, d.Name = r.Name ∧ d.Mirror = false))) D).2.2 =
      (filterRepos S D).2.2 := by
  have hpt : ∀ r : githubRepo,
      decide (∃ d ∈ D, d.Name = r.Name ∧ d.Mirror = false) = lastIsPlain D r :=
    fun r => (lastIsPlain_of_nodup D hD r).symm
  simp only [hpt]
  refine ⟨?_, ?_, ?_, ?_⟩
  · rw [filterRepos_eq]
  · intro r _ hex hmem
    rw [filterRepos_eq] at hmem
    have hnone := (List.mem_filter.mp hmem).2
    have hp : lastIsPlain D r = true := by
      rw [← hpt r]
      exact decide_eq_true hex
    obtain ⟨d, hl, _⟩ := (lastIsPlain_iff D r).mp hp
    rw [hl] at hnone
    cases hnone
  · rw [filterRepos_eq, filterRepos_eq]
    apply filter_filter_of_imp
    intro r hnone
    cases hl : lastNamed D r.Name with
    | none => simp [lastIsPlain, hl]
    | some d => rw [hl] at hnone; cases hnone
  · rw [filterRepos_eq, filterRepos_eq]
    apply countP_filter_of_imp
    intro r hm
    obtain ⟨d, hl, hm⟩ := (lastIsMirror_iff D r).mp hm
    simp [lastIsPlain, hl, hm]

/-- C4 at a concrete input: destination `b` (plain) and `c` (mirror), source
`a`, `b`, `c`, `b`. -/
theorem filterRepos_conflict_distinct_witness :
    (List.map gogsRepo.Name [⟨"b", "", false⟩, ⟨"c", "", true⟩]).Nodup ∧
    filterRepos [⟨"a", "", "", false⟩, ⟨"b", "", "", false⟩, ⟨"c", "", "", false⟩,
        ⟨"b", "", "", true⟩] [⟨"b", "", false⟩, ⟨"c", "", true⟩] =
      ([⟨"a", "", "", false⟩], 2, 1) ∧
    (filterRepos [⟨"a", "", "", false⟩, ⟨"b", "", "", false⟩, ⟨"c", "", "", false⟩,
        ⟨"b", "", "", true⟩] [⟨"b", "", false⟩, ⟨"c", "", true⟩]).2.1 =
      List.countP
        (fun r => decide (∃ d ∈ [(⟨"b", "", false⟩ : gogsRepo), ⟨"c", "", true⟩],
          d.Name = r.Name ∧ d.Mirror = false))
        [(⟨"a", "", "", false⟩ : githubRepo), ⟨"b", "", "", false⟩, ⟨"c", "", "", false⟩,
          ⟨"b", "", "", true⟩] :=
  ⟨by decide, by decide,
    (filterRepos_conflict_distinct
      [⟨"a", "", "", false⟩, ⟨"b", "", "", false⟩, ⟨"c", "", "", false⟩, ⟨"b", "", "", true⟩]
      [⟨"b", "", false⟩, ⟨"c", "", true⟩] (by decide)).1⟩

/-- C10: `filterRepos` classifies by the last destination entry of each name:
`filterRepos S D = filterRepos S (keepLast D)`, where `keepLast D` is the sub-list
of `D` with pairwise distinct names that holds, for each name, its last
occurrence in `D`.  With a plain entry followed by a mirror entry of the same
name a source repository of that name is already migrated; with the two swapped
it is a conflict. -/
theorem filterRepos_last_entry_wins (S : List githubRepo) (D : List gogsRepo) :
    filterRepos S D = filterRepos S (keepLast D) ∧
    (keepLast D).Sublist D ∧
    ((keepLast D).map gogsRepo.Name).Nodup ∧
    (∀ name, lastNamed (keepLast D) name = lastNamed D name) ∧
    (∀ (x : githubRepo) (d₁ d₂ : String),
      filterRepos [x] [⟨x.Name, d₁, false⟩, ⟨x.Name, d₂, true⟩] = ([], 0, 1)) ∧
    (∀ (x : githubRepo) (d₁ d₂ : String),
      filterRepos [x] [⟨x.Name, d₁, true⟩, ⟨x.Name, d₂, false⟩] = ([], 1, 0)) := by
  refine ⟨?_, keepLast_sublist D, keepLast_nodup D, lastNamed_keepLast D, ?_, ?_⟩
  · rw [filterRepos, filterRepos, dstRepoMap_step_congr D (keepLast D) (lastNamed_keepLast D)]
  · intro x d₁ d₂
    rw [filterRepos_eq]
    simp [lastNamed, lastIsPlain, lastIsMirror, List.filter_cons, List.countP_cons]
  · intro x d₁ d₂
    rw [filterRepos_eq]
    simp [lastNamed, lastIsPlain, lastIsMirror, List.filter_cons, List.countP_cons]

/-! ## The source lister: pagination -/

theorem World.send_nil (w : World) : w.send [] = w := by
  cases w
  simp [World.send]

theorem World.send_send (w : World) (xs ys : List (Client × Request)) :
    (w.send xs).send ys = w.send (xs ++ ys) := by
  simp [World.send]

theorem loop_step (env : Env) (user : String) (idx : Nat) (page : List githubRepo)
    (h : Serves env user idx page) (fuel : Nat) (acc : List githubRepo) (w : World) :
    fetchGithubRepos.loop env user (fuel + 1) acc idx w =
      if page.length < 50 then
        some (.ok (acc ++ page), w.send [fetchGithubRepos.request user idx])
      else
        fetchGithubRepos.loop env user fuel (acc ++ page) (idx + 1)
          (w.send [fetchGithubRepos.request user idx]) := by
  obtain ⟨res, b, h1, h2, h3, h4⟩ := h w.sent
  simp [fetchGithubRepos.loop, Get, Client.Do, h1, h2, h3, h4, World.send,
    fetchGithubRepos.request]

theorem loop_full (env : Env) (user : String) (pages : Nat → List githubRepo) (n : Nat) :
    ∀ (idx : Nat),
      (∀ i, idx ≤ i → i < idx + n → Serves env user i (pages i) ∧ 50 ≤ (pages i).length) →
      ∀ (fuel : Nat) (acc : List githubRepo) (w : World),
        fetchGithubRepos.loop env user (n + fuel) acc idx w =
          fetchGithubRepos.loop env user fuel
            (acc ++ ((List.range' idx n).map pages).flatten) (idx + n)
            (w.send ((List.range' idx n).map (fetchGithubRepos.request user))) := by
  induction n with
  | zero =>
    intro idx _ fuel acc w
    simp [World.send_nil]
  | succ n ih =>
    intro idx h fuel acc w
    have h0 := h idx (Nat.le_refl _) (by omega)
    have hrest : ∀ i, idx + 1 ≤ i → i < idx + 1 + n →
        Serves env user i (pages i) ∧ 50 ≤ (pages i).length :=
      fun i h1 h2 => h i (by omega) (by omega)
    have e : n + 1 + fuel = (n + fuel) + 1 := by omega
    rw [e, loop_step env user idx (pages idx) h0.1, if_neg (by omega), ih (idx + 1) hrest,
      World.send_send]
    simp [List.range'_succ, Nat.add_assoc, Nat.add_comm 1 n]

theorem loop_sent (env : Env) (user : String) (fuel : Nat) :
    ∀ (acc : List githubRepo) (idx : Nat) (w : World) (r : Except String (List githubRepo))
      (w' : World), fetchGithubRepos.loop env user fuel acc idx w = some (r, w') →
      ∃ more, w' = w.send (fetchGithubRepos.request user idx :: more) := by
  induction fuel with
  | zero =>
    intro acc idx w r w' h
    simp [fetchGithubRepos.loop] at h
  | succ fuel ih =>
    intro acc idx w r w' h
    have hone : ∀ x : Except String (List githubRepo),
        some (x, w.send [fetchGithubRepos.request user idx]) = some (r, w') →
        ∃ more, w' = w.send (fetchGithubRepos.request user idx :: more) := by
      intro x hx
      simp only [Option.some.injEq, Prod.mk.injEq] at hx
      exact ⟨[], hx.2.symm⟩
    rw [fetchGithubRepos.loop] at h
    simp only [Get, Client.Do] at h
    cases hrt : env.roundTrip w.sent DefaultClient
        (NewRequest "GET" (fetchGithubRepos.url user idx) none) with
    | error err =>
      rw [hrt] at h
      exact hone _ h
    | ok res =>
      rw [hrt] at h
      simp only at h
      split at h
      · exact hone _ h
      · cases hb : res.Body with
        | error err =>
          rw [hb] at h
          exact hone _ h
        | ok b =>
          rw [hb] at h
          simp only at h
          cases hu : env.unmarshalGithubRepos b with
          | error err =>
            rw [hu] at h
            exact hone _ h
          | ok result =>
            rw [hu] at h
            simp only at h
            split at h
            · exact hone _ h
            · obtain ⟨more, hm⟩ := ih _ _ _ _ _ h
              refine ⟨fetchGithubRepos.request user (idx + 1) :: more, ?_⟩
              rw [hm]
              simp [World.send, fetchGithubRepos.request]

/-- C6: let the source service answer the request for page `i` with `pages i`
for `1 ≤ i ≤ k`, where `k ≥ 1` is the first page with fewer than 50 items.  Then
`fetchGithubRepos`, given fuel for `k` iterations, returns the concatenation of
pages `1 .. k` and has sent exactly the requests for pages `1 .. k`, once each
and in that order; with less fuel it has not finished.  If the first `n` pages
hold 50 items or more then `n < k`, and even without a short page the request for
page `n + 1` is sent whenever the call returns. -/
theorem fetchGithubRepos_pagination (env : Env) (user : String)
    (pages : Nat → List githubRepo) (k : Nat) (hk : 1 ≤ k)
    (hserve : ∀ i, 1 ≤ i → i ≤ k → Serves env user i (pages i))
    (hfull : ∀ i, 1 ≤ i → i < k → 50 ≤ (pages i).length)
    (hshort : (pages k).length < 50) :
    (∀ fuel w, k ≤ fuel →
      fetchGithubRepos env user fuel w =
        some (.ok ((List.range' 1 k).map pages).flatten,
          w.send ((List.range' 1 k).map (fetchGithubRepos.request user)))) ∧
    (∀ fuel w, fuel < k → fetchGithubRepos env user fuel w = none) ∧
    (∀ n, (∀ i, 1 ≤ i → i ≤ n → 50 ≤ (pages i).length) → n < k) ∧
    (∀ (pages' : Nat → List githubRepo) (n : Nat),
      (∀ i, 1 ≤ i → i ≤ n → Serves env user i (pages' i) ∧ 50 ≤ (pages' i).length) →
      ∀ fuel w r w', fetchGithubRepos env user fuel w = some (r, w') →
        ∃ more, w' = w.send ((List.range' 1 (n + 1)).map (fetchGithubRepos.request user)
          ++ more)) := by
  have hpre : ∀ m, m < k → ∀ i, 1 ≤ i → i < 1 + m →
      Serves env user i (pages i) ∧ 50 ≤ (pages i).length :=
    fun m hm i h1 h2 => ⟨hserve i h1 (by omega), hfull i h1 (by omega)⟩
  refine ⟨?_, ?_, ?_, ?_⟩
  · intro fuel w hfuel
    obtain ⟨j, rfl⟩ : ∃ j, k = j + 1 := ⟨k - 1, by omega⟩
    obtain ⟨f, rfl⟩ : ∃ f, fuel = j + (f + 1) := ⟨fuel - j - 1, by omega⟩
    rw [fetchGithubRepos, loop_full env user pages j 1 (hpre j (by omega)),
      loop_step env user (1 + j) (pages (1 + j))
        (hserve (1 + j) (by omega) (by omega)),
      if_pos (by rw [Nat.add_comm 1 j]; exact hshort), World.send_send]
    simp [List.range'_concat, Nat.add_comm 1 j]
  · intro fuel w hfuel
    have := loop_full env user pages fuel 1 (hpre fuel hfuel) 0 [] w
    rw [Nat.add_zero] at this
    rw [fetchGithubRepos, this, fetchGithubRepos.loop]
  · intro n hn
    by_contra hnk
    have := hn k hk (by omega)
    omega
  · intro pages' n hn fuel w r w' h
    by_cases hfuel : fuel ≤ n
    · have := loop_full env user pages' fuel 1 (fun i h1 h2 => hn i h1 (by omega)) 0 [] w
      rw [Nat.add_zero] at this
      rw [fetchGithubRepos, this, fetchGithubRepos.loop] at h
      cases h
    · obtain ⟨f, rfl⟩ : ∃ f, fuel = n + f := ⟨fuel - n, by omega⟩
      rw [fetchGithubRepos,
        loop_full env user pages' n 1 (fun i h1 h2 => hn i h1 (by omega))] at h
      obtain ⟨more, hm⟩ := loop_sent env user f _ _ _ _ _ h
      refine ⟨more, ?_⟩
      rw [hm, World.send_send]
      simp [List.range'_concat, Nat.add_comm 1 n]

/-- C6 at page sizes 50, 50, 23: three requests, 123 repositories. -/
theorem fetchGithubRepos_pagination_witness :
    (fetchGithubRepos pagedEnv "u" 3 ⟨[], []⟩).map
        (fun r => (r.1.toOption.map List.length, r.2.sent.map (fun e => e.2.URL))) =
      some (some 123,
        ["https://api.github.com/users/u/repos?page=1&per_page=50",
         "https://api.github.com/users/u/repos?page=2&per_page=50",
         "https://api.github.com/users/u/repos?page=3&per_page=50"]) ∧
    fetchGithubRepos pagedEnv "u" 3 ⟨[], []⟩ =
      some (.ok ((List.range' 1 3).map pagedPages).flatten,
        World.send ⟨[], []⟩ ((List.range' 1 3).map (fetchGithubRepos.request "u"))) :=
  ⟨by decide,
    (fetchGithubRepos_pagination pagedEnv "u" pagedPages 3 (by decide)
      (by
        intro i h1 h2 sent
        interval_cases i <;> exact ⟨_, _, rfl, rfl, rfl, rfl⟩)
      (by
        intro i h1 h2
        interval_cases i <;> decide)
      (by decide)).1 3 ⟨[], []⟩ (Nat.le_refl 3)⟩

/-! ## The destination client and the orchestrator -/

theorem fetchUserInfo_fresh (env : Env) (g : gogs) (w : World) (hg : g.uidFetched = false) :
    ∃ err u, g.fetchUserInfo env w = (err, { g with uid := u }, w.send [g.userRequest]) := by
  obtain ⟨url, token, uid, fetched, client⟩ := g
  simp only at hg
  subst hg
  unfold gogs.fetchUserInfo
  simp only [Bool.false_eq_true, if_false, Client.Do]
  cases hrt : env.roundTrip w.sent client
      (gogs.handleAuth ⟨url, token, uid, false, client⟩
        (NewRequest "GET" (url ++ "/api/v1/user") none)) with
  | error err => exact ⟨some err, uid, rfl⟩
  | ok res =>
    simp only
    split
    · exact ⟨some res.Status, uid, rfl⟩
    · cases hb : res.Body with
      | error err => exact ⟨some err, uid, rfl⟩
      | ok b =>
        simp only
        cases hu : env.unmarshalUserID b with
        | error err => exact ⟨some err, uid, rfl⟩
        | ok id => exact ⟨none, id, rfl⟩

theorem migrate_fresh (env : Env) (g : gogs) (r : githubRepo) (w : World)
    (hg : g.uidFetched = false) (err : Option String) (g' : gogs) (w' : World)
    (h : g.migrate env r w = (err, g', w')) :
    ∃ u, g' = { g with uid := u } ∧
      ((err ≠ none ∧ w' = w.send [g.userRequest]) ∨
       (∃ body, env.marshal (gogs.migrate.formMap r u) = .ok body ∧
          w' = w.send [g.userRequest, g.migrateRequest body])) := by
  obtain ⟨e, u, hu⟩ := fetchUserInfo_fresh env g w hg
  unfold gogs.migrate at h
  rw [hu] at h
  cases e with
  | some e =>
    simp only [Prod.mk.injEq] at h
    exact ⟨u, h.2.1.symm, Or.inl ⟨by rw [← h.1]; simp, h.2.2.symm⟩⟩
  | none =>
    simp only at h
    cases hm : env.marshal (gogs.migrate.formMap r u) with
    | error e =>
      rw [hm] at h
      simp only [Prod.mk.injEq] at h
      exact ⟨u, h.2.1.symm, Or.inl ⟨by rw [← h.1]; simp, h.2.2.symm⟩⟩
    | ok body =>
      rw [hm] at h
      simp only [Client.Do] at h
      have hw : ∀ x : Option String,
          (x, { g with uid := u },
            ({ sent := (w.send [g.userRequest]).sent ++
                [(g.client, gogs.handleAuth { g with uid := u }
                  ((NewRequest "POST" (g.url ++ "/api/v1/repos/migrate") (some body)).SetHeader
                    "Content-Type" "application/json"))],
               stdout := (w.send [g.userRequest]).stdout } : World)) = (err, g', w') →
          ∃ u, g' = { g with uid := u } ∧
            ((err ≠ none ∧ w' = w.send [g.userRequest]) ∨
             (∃ body, env.marshal (gogs.migrate.formMap r u) = .ok body ∧
                w' = w.send [g.userRequest, g.migrateRequest body])) := by
        intro x hx
        simp only [Prod.mk.injEq] at hx
        refine ⟨u, hx.2.1.symm, Or.inr ⟨body, hm, ?_⟩⟩
        rw [← hx.2.2]
        simp [World.send, gogs.migrateRequest, gogs.handleAuth]
      generalize env.roundTrip _ _ _ = rt at h
      cases rt with
      | error e => exact hw _ h
      | ok res =>
        simp only at h
        split at h
        · exact hw _ h
        · exact hw _ h

theorem loop_spec (env : Env) (rs : List githubRepo) :
    ∀ (g : gogs) (w : World), ∃ (m : Nat) (g' : gogs) (w' : World),
      m ≤ rs.length ∧ Migrated env g w (rs.take m) g' w' ∧
      ((m = rs.length ∧ run.loop env g rs w = (none, g', w')) ∨
       (∃ r e gf wf, rs[m]? = some r ∧
          g'.migrate env r (w'.Printf (run.progress r)) = (some e, gf, wf) ∧
          run.loop env g rs w = (some e, gf, wf))) := by
  induction rs with
  | nil =>
    intro g w
    exact ⟨0, g, w, Nat.le_refl _, ⟨rfl, rfl⟩, Or.inl ⟨rfl, rfl⟩⟩
  | cons r rs ih =>
    intro g w
    rcases hm : g.migrate env r (w.Printf (run.progress r)) with ⟨err, g₁, w₁⟩
    cases err with
    | some e =>
      refine ⟨0, g, w, Nat.zero_le _, ⟨rfl, rfl⟩, Or.inr ⟨r, e, g₁, w₁, by simp, hm, ?_⟩⟩
      simp [run.loop, hm]
    | none =>
      obtain ⟨m, g', w', hle, hmig, hres⟩ := ih g₁ w₁
      refine ⟨m + 1, g', w', Nat.succ_le_succ hle, ⟨g₁, w₁, hm, hmig⟩, ?_⟩
      have hloop : run.loop env g (r :: rs) w = run.loop env g₁ rs w₁ := by
        simp [run.loop, hm]
      rcases hres with ⟨h1, h2⟩ | ⟨r', e, gf, wf, h1, h2, h3⟩
      · exact Or.inl ⟨by simp [h1], hloop.trans h2⟩
      · exact Or.inr ⟨r', e, gf, wf, by simpa using h1, h2, hloop.trans h3⟩

theorem Migrated_effect (env : Env) (rs : List githubRepo) :
    ∀ (g : gogs) (w : World) (g' : gogs) (w' : World), g.uidFetched = false →
      Migrated env g w rs g' w' →
      ∃ bodies, List.Forall₂ (IsFormOf env) rs bodies ∧
        (∃ u, g' = { g with uid := u }) ∧
        w'.stdout = w.stdout ++ rs.map run.progress ∧
        w'.sent = w.sent ++ bodies.flatMap (fun b => [g.userRequest, g.migrateRequest b]) := by
  induction rs with
  | nil =>
    intro g w g' w' _ h
    obtain ⟨rfl, rfl⟩ := h
    exact ⟨[], List.Forall₂.nil, ⟨g'.uid, rfl⟩, by simp, by simp⟩
  | cons r rs ih =>
    intro g w g' w' hg h
    obtain ⟨g₁, w₁, hm, hrest⟩ := h
    obtain ⟨u, hg₁, hcase⟩ := migrate_fresh env g r _ hg none g₁ w₁ hm
    rcases hcase with ⟨hne, _⟩ | ⟨body, hbody, hw₁⟩
    · exact absurd rfl hne
    · subst hg₁
      obtain ⟨bodies, hall, ⟨u', hg'⟩, hout, hsent⟩ :=
        ih { g with uid := u } w₁ g' w' hg hrest
      refine ⟨body :: bodies, List.Forall₂.cons ⟨u, hbody⟩ hall, ⟨u', hg'⟩, ?_, ?_⟩
      · rw [hout, hw₁]
        simp [World.send, World.Printf]
      · rw [hsent, hw₁]
        simp [World.send, World.Printf, gogs.userRequest, gogs.migrateRequest, gogs.handleAuth]

/-- C7: when both fetches of `run` succeed and `mRepos` is the migrate set of
`filterRepos`, there is a number `m` of successful migrations such that the
first `m` repositories of `mRepos`, in order, were each passed to `migrate` once
and migrated (one identity request and one migration request each, one progress
line each).  Either `m` is the length of `mRepos` and `run` returns no error, or
the repository at position `m` is passed to `migrate`, that call fails with an
error `e`, `run` returns `e` and the world is the one that call left: nothing
is printed or sent for a later repository. -/
theorem run_migrates_in_order (env : Env) (src dst token : String) (fuel : Nat)
    (w₀ w₁ w₂ : World) (srcRepos : List githubRepo) (dstRepos : List gogsRepo)
    (mRepos : List githubRepo) (conflict already : Nat)
    (hsrc : fetchGithubRepos env src fuel w₀ = some (.ok srcRepos, w₁))
    (hdst : (run.client dst token).fetchGogsRepos env w₁ = (.ok dstRepos, w₂))
    (hfilter : filterRepos srcRepos dstRepos = (mRepos, conflict, already)) :
    ∃ (m : Nat) (g' : gogs) (w' : World) (bodies : List String),
      m ≤ mRepos.length ∧
      Migrated env (run.client dst token)
        (w₂.Printf (run.summary mRepos.length conflict already)) (mRepos.take m) g' w' ∧
      List.Forall₂ (IsFormOf env) (mRepos.take m) bodies ∧
      w'.stdout = w₂.stdout ++ run.summary mRepos.length conflict already ::
        (mRepos.take m).map run.progress ∧
      w'.sent = w₂.sent ++ bodies.flatMap (fun b =>
        [(run.client dst token).userRequest, (run.client dst token).migrateRequest b]) ∧
      ((m = mRepos.length ∧ run env src dst token fuel w₀ = some (none, w')) ∨
       (∃ r e gf wf, mRepos[m]? = some r ∧
          g'.migrate env r (w'.Printf (run.progress r)) = (some e, gf, wf) ∧
          run env src dst token fuel w₀ = some (some e, wf) ∧
          wf.stdout = w'.stdout ++ [run.progress r] ∧
          (wf.sent = w'.sent ++ [(run.client dst token).userRequest] ∨
           ∃ b, IsFormOf env r b ∧
             wf.sent = w'.sent ++
               [(run.client dst token).userRequest, (run.client dst token).migrateRequest b]))) := by
  have hrun : ∀ x, run.loop env (run.client dst token) mRepos
        (w₂.Printf (run.summary mRepos.length conflict already)) = x →
      run env src dst token fuel w₀ = some (x.1, x.2.2) := by
    intro x hx
    simp only [run, hsrc, hdst, hfilter, hx]
  obtain ⟨m, g', w', hle, hmig, hres⟩ := loop_spec env mRepos (run.client dst token)
    (w₂.Printf (run.summary mRepos.length conflict already))
  obtain ⟨bodies, hall, ⟨u, hg'⟩, hout, hsent⟩ :=
    Migrated_effect env _ _ _ _ _ rfl hmig
  refine ⟨m, g', w', bodies, hle, hmig, hall, ?_, hsent, ?_⟩
  · rw [hout]
    simp [World.Printf]
  · rcases hres with ⟨h1, h2⟩ | ⟨r, e, gf, wf, h1, h2, h3⟩
    · exact Or.inl ⟨h1, hrun _ h2⟩
    · refine Or.inr ⟨r, e, gf, wf, h1, h2, hrun _ h3, ?_⟩
      have hfresh : g'.uidFetched = false := by rw [hg']; rfl
      obtain ⟨u', _, hcase⟩ := migrate_fresh env g' r _ hfresh (some e) gf wf h2
      have hu : g'.userRequest = (run.client dst token).userRequest := by rw [hg']; rfl
      have hmr : ∀ b, g'.migrateRequest b = (run.client dst token).migrateRequest b := by
        intro b; rw [hg']; rfl
      rcases hcase with ⟨_, hw⟩ | ⟨b, hb, hw⟩
      · rw [hw, hu]
        exact ⟨rfl, Or.inl rfl⟩
      · rw [hw, hu, hmr]
        exact ⟨rfl, Or.inr ⟨b, ⟨u', hb⟩, rfl⟩⟩

/-- C7 at the end-to-end scenario: source `a`, `b`, `c` (a fork), destination
`b` (a mirror).  The migrate set is `a`, `c`; `run` returns no error and the
migration requests are the one for `a`, then the one for `c`. -/
theorem run_migrates_in_order_witness :
    filterRepos [exA, exB, exC] [⟨"b", "second", true⟩] = ([exA, exC], 0, 1) ∧
    (run exEnv "u" "https://gogs.example" "" 1 ⟨[], []⟩).map
        (fun r => (r.1, r.2.sent.filterMap (fun e => e.2.Body), r.2.stdout)) =
      some (none,
        ["uid=7&repo_name=a&mirror=true&description=first&clone_addr=https://github.com/u/a",
         "uid=7&repo_name=c&mirror=true&description=third&clone_addr=https://github.com/u/c"],
        ["2 repos need to migrate, 0 conflict repos ignored, 1 repos already exist\n",
         "migrating a\n", "migrating c\n"]) ∧
    ∃ (m : Nat) (g' : gogs) (w' : World) (bodies : List String),
      m ≤ [exA, exC].length ∧
      Migrated exEnv (run.client "https://gogs.example" "")
        (World.Printf
          ⟨[fetchGithubRepos.request "u" 1,
            (run.client "https://gogs.example" "").reposRequest], []⟩
          (run.summary [exA, exC].length 0 1))
        ([exA, exC].take m) g' w' ∧
      List.Forall₂ (IsFormOf exEnv) ([exA, exC].take m) bodies :=
  ⟨by decide, by decide,
    match run_migrates_in_order exEnv "u" "https://gogs.example" "" 1 ⟨[], []⟩
      ⟨[fetchGithubRepos.request "u" 1], []⟩
      ⟨[fetchGithubRepos.request "u" 1, (run.client "https://gogs.example" "").reposRequest], []⟩
      [exA, exB, exC] [⟨"b", "second", true⟩] [exA, exC] 0 1 rfl rfl (by decide) with
    | ⟨m, g', w', bodies, h1, h2, h3, _⟩ => ⟨m, g', w', bodies, h1, h2, h3⟩⟩

theorem loop_sent_pages (env : Env) (user : String) (fuel : Nat) :
    ∀ (acc : List githubRepo) (idx : Nat) (w : World) (r : Except String (List githubRepo))
      (w' : World), fetchGithubRepos.loop env user fuel acc idx w = some (r, w') →
      ∃ n, w' = w.send ((List.range' idx n).map (fetchGithubRepos.request user)) := by
  intro acc idx w r w' h
  obtain ⟨f, rfl⟩ : ∃ f, fuel = f + 1 := by
    cases fuel with
    | zero => simp [fetchGithubRepos.loop] at h
    | succ f => exact ⟨f, rfl⟩
  induction f generalizing acc idx w with
  | zero =>
    refine ⟨1, ?_⟩
    rw [fetchGithubRepos.loop] at h
    simp only [Get, Client.Do, fetchGithubRepos.loop] at h
    generalize env.roundTrip _ _ _ = rt at h
    cases rt with
    | error e =>
      simp only [Option.some.injEq, Prod.mk.injEq] at h
      rw [← h.2]; rfl
    | ok res =>
      simp only at h
      split at h
      · simp only [Option.some.injEq, Prod.mk.injEq] at h
        rw [← h.2]; rfl
      · cases hb : res.Body with
        | error e =>
          rw [hb] at h
          simp only [Option.some.injEq, Prod.mk.injEq] at h
          rw [← h.2]; rfl
        | ok b =>
          rw [hb] at h
          simp only at h
          cases hu : env.unmarshalGithubRepos b with
          | error e =>
            rw [hu] at h
            simp only [Option.some.injEq, Prod.mk.injEq] at h
            rw [← h.2]; rfl
          | ok result =>
            rw [hu] at h
            simp only at h
            split at h
            · simp only [Option.some.injEq, Prod.mk.injEq] at h
              rw [← h.2]; rfl
            · cases h
  | succ f ih =>
    rw [fetchGithubRepos.loop] at h
    simp only [Get, Client.Do] at h
    generalize env.roundTrip _ _ _ = rt at h
    cases rt with
    | error e =>
      simp only [Option.some.injEq, Prod.mk.injEq] at h
      exact ⟨1, by rw [← h.2]; rfl⟩
    | ok res =>
      simp only at h
      split at h
      · simp only [Option.some.injEq, Prod.mk.injEq] at h
        exact ⟨1, by rw [← h.2]; rfl⟩
      · cases hb : res.Body with
        | error e =>
          rw [hb] at h
          simp only [Option.some.injEq, Prod.mk.injEq] at h
          exact ⟨1, by rw [← h.2]; rfl⟩
        | ok b =>
          rw [hb] at h
          simp only at h
          cases hu : env.unmarshalGithubRepos b with
          | error e =>
            rw [hu] at h
            simp only [Option.some.injEq, Prod.mk.injEq] at h
            exact ⟨1, by rw [← h.2]; rfl⟩
          | ok result =>
            rw [hu] at h
            simp only at h
            split at h
            · simp only [Option.some.injEq, Prod.mk.injEq] at h
              exact ⟨1, by rw [← h.2]; rfl⟩
            · obtain ⟨n, hn⟩ := ih _ _ _ h
              refine ⟨n + 1, ?_⟩
              rw [hn]
              simp [World.send, List.range'_succ, fetchGithubRepos.request]

theorem fetchGogsRepos_world (env : Env) (g : gogs) (w : World) :
    (g.fetchGogsRepos env w).2 = w.send [g.reposRequest] := by
  unfold gogs.fetchGogsRepos
  simp only [Client.Do]
  generalize env.roundTrip _ _ _ = rt
  cases rt with
  | error e => rfl
  | ok res =>
    simp only
    split
    · rfl
    · cases res.Body with
      | error e => rfl
      | ok b =>
        simp only
        cases env.unmarshalGogsRepos b <;> rfl

theorem handleAuth_URL (g : gogs) (req : Request) : (g.handleAuth req).URL = req.URL := by
  unfold gogs.handleAuth
  split <;> rfl

theorem handleAuth_Method (g : gogs) (req : Request) :
    (g.handleAuth req).Method = req.Method := by
  unfold gogs.handleAuth
  split <;> rfl

/-- C8: if the source fetch succeeds and the destination fetch fails with error
`e`, `run` returns `e`, and all it has sent are page requests to the source
followed by the one repository listing request to the destination; neither kind
is an identity request or a migration request.  The destination fetch fails when
the transport fails, when the status is not 200, when the body cannot be read
and when it cannot be decoded.  If the source fetch fails with error `e`, `run`
returns `e` and has sent nothing but page requests to the source. -/
theorem run_aborts_on_fetch_failure (env : Env) (src dst token : String) (fuel : Nat)
    (w₀ : World) :
    (∀ srcRepos w₁ e w₂,
      fetchGithubRepos env src fuel w₀ = some (.ok srcRepos, w₁) →
      (run.client dst token).fetchGogsRepos env w₁ = (.error e, w₂) →
      run env src dst token fuel w₀ = some (some e, w₂) ∧
      ∃ n, w₂ = w₀.send ((List.range' 1 n).map (fetchGithubRepos.request src) ++
        [(run.client dst token).reposRequest])) ∧
    ((run.client dst token).reposRequest ≠ (run.client dst token).userRequest ∧
      (∀ body,
        (run.client dst token).reposRequest ≠ (run.client dst token).migrateRequest body) ∧
      (∀ i, fetchGithubRepos.request src i ≠ (run.client dst token).userRequest) ∧
      (∀ i body,
        fetchGithubRepos.request src i ≠ (run.client dst token).migrateRequest body)) ∧
    (∀ (g : gogs) (w : World),
      (∀ e, env.roundTrip w.sent g.client g.reposRequest.2 = .error e →
        g.fetchGogsRepos env w = (.error e, w.send [g.reposRequest])) ∧
      (∀ res, env.roundTrip w.sent g.client g.reposRequest.2 = .ok res →
        res.StatusCode ≠ 200 →
        g.fetchGogsRepos env w = (.error res.Status, w.send [g.reposRequest])) ∧
      (∀ res e, env.roundTrip w.sent g.client g.reposRequest.2 = .ok res →
        res.StatusCode = 200 → res.Body = .error e →
        g.fetchGogsRepos env w = (.error e, w.send [g.reposRequest])) ∧
      (∀ res b e, env.roundTrip w.sent g.client g.reposRequest.2 = .ok res →
        res.StatusCode = 200 → res.Body = .ok b → env.unmarshalGogsRepos b = .error e →
        g.fetchGogsRepos env w = (.error e, w.send [g.reposRequest]))) ∧
    (∀ e w₁, fetchGithubRepos env src fuel w₀ = some (.error e, w₁) →
      run env src dst token fuel w₀ = some (some e, w₁) ∧
      ∃ n, w₁ = w₀.send ((List.range' 1 n).map (fetchGithubRepos.request src))) := by
  refine ⟨?_, ⟨?_, ?_, ?_, ?_⟩, ?_, ?_⟩
  · intro srcRepos w₁ e w₂ hsrc hdst
    refine ⟨by simp only [run, hsrc, hdst], ?_⟩
    obtain ⟨n, hn⟩ := loop_sent_pages env src fuel [] 1 w₀ _ w₁ hsrc
    have := fetchGogsRepos_world env (run.client dst token) w₁
    rw [hdst] at this
    have h2 : w₂ = w₁.send [(run.client dst token).reposRequest] := this
    exact ⟨n, by rw [h2, hn, World.send_send]⟩
  · intro h
    have hurl := congrArg (fun e => e.2.URL.length) h
    simp only [gogs.reposRequest, gogs.userRequest, handleAuth_URL, NewRequest,
      String.length_append] at hurl
    have h1 : "/api/v1/user/repos".length = 18 := by decide
    have h2 : "/api/v1/user".length = 12 := by decide
    omega
  · intro body h
    have hm := congrArg (fun e => e.2.Method) h
    simp only [gogs.reposRequest, gogs.migrateRequest, handleAuth_Method, NewRequest,
      Request.SetHeader] at hm
    exact absurd hm (by decide)
  · intro i h
    have hc : false = true := congrArg (fun e => e.1.InsecureSkipVerify) h
    cases hc
  · intro i body h
    have hc : false = true := congrArg (fun e => e.1.InsecureSkipVerify) h
    cases hc
  · intro g w
    refine ⟨?_, ?_, ?_, ?_⟩
    · intro e h
      simp only [gogs.reposRequest] at h
      simp only [gogs.fetchGogsRepos, Client.Do, h]
      rfl
    · intro res h hs
      simp only [gogs.reposRequest] at h
      simp only [gogs.fetchGogsRepos, Client.Do, h, if_pos hs]
      rfl
    · intro res e h hs hb
      simp only [gogs.reposRequest] at h
      simp only [gogs.fetchGogsRepos, Client.Do, h, hs, hb, ne_eq, not_true_eq_false,
        if_false]
      rfl
    · intro res b e h hs hb hu
      simp only [gogs.reposRequest] at h
      simp only [gogs.fetchGogsRepos, Client.Do, h, hs, hb, hu, ne_eq, not_true_eq_false,
        if_false]
      rfl
  · intro e w₁ hsrc
    refine ⟨by simp only [run, hsrc], ?_⟩
    exact loop_sent_pages env src fuel [] 1 w₀ _ w₁ hsrc

/-- C8 at a destination answering 401: `run` returns the status text, having sent
one page request to the source and the listing request to the destination. -/
theorem run_aborts_on_fetch_failure_witness :
    run unauthEnv "u" "https://gogs.example" "tok" 1 ⟨[], []⟩ =
      some (some "401 Unauthorized",
        ⟨[(DefaultClient,
            ⟨"GET", "https://api.github.com/users/u/repos?page=1&per_page=50", [], none⟩),
          (⟨true⟩,
            ⟨"GET", "https://gogs.example/api/v1/user/repos",
              [("Authorization", "token tok")], none⟩)], []⟩) :=
  ((run_aborts_on_fetch_failure unauthEnv "u" "https://gogs.example" "tok" 1 ⟨[], []⟩).1
    [exA]
    ⟨[(DefaultClient,
        ⟨"GET", "https://api.github.com/users/u/repos?page=1&per_page=50", [], none⟩)], []⟩
    "401 Unauthorized"
    ⟨[(DefaultClient,
        ⟨"GET", "https://api.github.com/users/u/repos?page=1&per_page=50", [], none⟩),
      (⟨true⟩,
        ⟨"GET", "https://gogs.example/api/v1/user/repos",
          [("Authorization", "token tok")], none⟩)], []⟩
    rfl rfl).1

/-! ## The migration request and the identity lookup -/

theorem fetchUserInfo_client (env : Env) (g : gogs) (w : World) (err : Option String)
    (g₁ : gogs) (w₁ : World) (h : g.fetchUserInfo env w = (err, g₁, w₁)) :
    ∃ u, g₁ = { g with uid := u } := by
  rcases Bool.eq_false_or_eq_true g.uidFetched with hg | hg
  · simp only [gogs.fetchUserInfo, hg, if_true, Prod.mk.injEq] at h
    exact ⟨g.uid, h.2.1.symm⟩
  · obtain ⟨e, u, hu⟩ := fetchUserInfo_fresh env g w hg
    rw [hu] at h
    simp only [Prod.mk.injEq] at h
    exact ⟨u, h.2.1.symm⟩

/-- C9: when the identity resolution of `migrate` succeeds and leaves user id
`u`, the form that `migrate` encodes has exactly the five entries `uid = u`,
`repo_name = r.Name`, `mirror = true`, `description = r.Description` and
`clone_addr = r.URL`; if the encoding succeeds with `body`, `migrate` sends one
request more, a POST to `/api/v1/repos/migrate` with content type
`application/json` and that body, and if the encoding fails nothing is sent.
The `Fork` flag of the repository has no influence on what `migrate` does. -/
theorem migrate_posts_form (env : Env) (g : gogs) (r : githubRepo) (w : World) (u : Int)
    (g₁ : gogs) (w₁ : World)
    (huser : g.fetchUserInfo env w = (none, g₁, w₁)) (hu : g₁.uid = u) :
    gogs.migrate.formMap r u =
      [("uid", .int u), ("repo_name", .str r.Name), ("mirror", .bool true),
       ("description", .str r.Description), ("clone_addr", .str r.URL)] ∧
    (∀ body, env.marshal (gogs.migrate.formMap r u) = .ok body →
      (g.migrate env r w).2 =
        (g₁, w₁.send [(g.client, g.handleAuth
          ⟨"POST", g.url ++ "/api/v1/repos/migrate", [("Content-Type", "application/json")],
            some body⟩)])) ∧
    (∀ e, env.marshal (gogs.migrate.formMap r u) = .error e →
      g.migrate env r w = (some e, g₁, w₁)) ∧
    (∀ fork, g.migrate env { r with Fork := fork } w = g.migrate env r w) := by
  refine ⟨by simp [gogs.migrate.formMap, GoMap.set], ?_, ?_, ?_⟩
  · intro body hbody
    obtain ⟨u', hg₁⟩ := fetchUserInfo_client env g w none g₁ w₁ huser
    subst hu
    unfold gogs.migrate
    rw [huser]
    simp only [hbody, Client.Do]
    generalize env.roundTrip _ _ _ = rt
    subst hg₁
    cases rt with
    | error e => rfl
    | ok res =>
      simp only
      split <;> rfl
  · intro e he
    subst hu
    unfold gogs.migrate
    rw [huser]
    simp only [he]
  · intro fork
    rfl

/-- C9 at the fork `c` of the examples, with user id 7 and token `tok`. -/
theorem migrate_posts_form_witness :
    (gogs.migrate exEnv (run.client "https://gogs.example" "tok") exC ⟨[], []⟩).2.2.sent =
      [(⟨true⟩, ⟨"GET", "https://gogs.example/api/v1/user",
          [("Authorization", "token tok")], none⟩),
       (⟨true⟩, ⟨"POST", "https://gogs.example/api/v1/repos/migrate",
          [("Authorization", "token tok"), ("Content-Type", "application/json")],
          some
            "uid=7&repo_name=c&mirror=true&description=third&clone_addr=https://github.com/u/c"⟩)] ∧
    (gogs.migrate exEnv (run.client "https://gogs.example" "tok") exC ⟨[], []⟩).2 =
      ({ run.client "https://gogs.example" "tok" with uid := 7 },
        World.send ⟨[(run.client "https://gogs.example" "tok").userRequest], []⟩
          [(⟨true⟩, gogs.handleAuth (run.client "https://gogs.example" "tok")
            ⟨"POST", "https://gogs.example" ++ "/api/v1/repos/migrate",
              [("Content-Type", "application/json")],
              some
                "uid=7&repo_name=c&mirror=true&description=third&clone_addr=https://github.com/u/c"⟩)]) :=
  ⟨by decide,
    (migrate_posts_form exEnv (run.client "https://gogs.example" "tok") exC ⟨[], []⟩ 7
      { run.client "https://gogs.example" "tok" with uid := 7 }
      ⟨[(run.client "https://gogs.example" "tok").userRequest], []⟩ rfl rfl).2.1
      "uid=7&repo_name=c&mirror=true&description=third&clone_addr=https://github.com/u/c"
      rfl⟩

/-- C5 fails on the code: `fetchUserInfo` never sets `uidFetched`, so a second
call on the same client sends the identity request again and overwrites the uid
(here 7 becomes 8), and the run of the end-to-end scenario, which migrates two
repositories, sends two identity requests. -/
theorem fetchUserInfo_not_memoized :
    gogs.fetchUserInfo driftEnv (run.client "https://gogs.example" "") ⟨[], []⟩ =
      (none, ⟨"https://gogs.example", "", 7, false, ⟨true⟩⟩,
        ⟨[(⟨true⟩, ⟨"GET", "https://gogs.example/api/v1/user", [], none⟩)], []⟩) ∧
    gogs.fetchUserInfo driftEnv ⟨"https://gogs.example", "", 7, false, ⟨true⟩⟩
        ⟨[(⟨true⟩, ⟨"GET", "https://gogs.example/api/v1/user", [], none⟩)], []⟩ =
      (none, ⟨"https://gogs.example", "", 8, false, ⟨true⟩⟩,
        ⟨[(⟨true⟩, ⟨"GET", "https://gogs.example/api/v1/user", [], none⟩),
          (⟨true⟩, ⟨"GET", "https://gogs.example/api/v1/user", [], none⟩)], []⟩) ∧
    (run exEnv "u" "https://gogs.example" "" 1 ⟨[], []⟩).map
        (fun r => r.2.sent.map (fun e => (e.2.Method, e.2.URL))) =
      some [("GET", "https://api.github.com/users/u/repos?page=1&per_page=50"),
            ("GET", "https://gogs.example/api/v1/user/repos"),
            ("GET", "https://gogs.example/api/v1/user"),
            ("POST", "https://gogs.example/api/v1/repos/migrate"),
            ("GET", "https://gogs.example/api/v1/user"),
            ("POST", "https://gogs.example/api/v1/repos/migrate")] := by
  decide

end Github2Gogs
